import Mathlib

set_option maxRecDepth 8192

/-!
Verification of the image-analysis repository.

The repository consists of a pixel-statistics engine (`lib/imageAnalysis.ts`,
whose `analyzeImage` function is imported by the UI component) and a React
upload/display component (`app/components/ImageAnalyzer`, present in the
sources).  The engine source itself is not part of the source tree we have, so
its behaviour is modelled from the specification; the upload layer
(`validateFile`, `runAnalysis`, `handleFiles`, `AnalysisState`) is embedded
from the component source.

Numeric conventions: pixel bytes are natural numbers, weights and percentages
are rationals, and the two genuinely real-valued statistics (entropy, which
uses `log`, and contrast, which uses a square root) live in `ℝ`.
-/

/-- One RGBA pixel of the decoded bitmap (8-bit channels). -/
structure Pixel where
  r : ℕ
  g : ℕ
  b : ℕ
  a : ℕ
deriving DecidableEq, Repr

/-- Modelled from the spec: the engine consumes a flat RGBA byte buffer
(`W*H` samples, 4 bytes each); this groups the buffer into pixels. -/
def toPixels : List ℕ → List Pixel
  | r :: g :: b :: a :: rest => ⟨r, g, b, a⟩ :: toPixels rest
  | _ => []

/-- Modelled from the spec: a sample's weight is its opacity `alpha/255`;
fully transparent pixels weigh 0 (excluded from all aggregates). -/
def pixWeight (p : Pixel) : ℚ := (min 255 p.a : ℕ) / 255

/-- Modelled from the spec: total weighted sample count. -/
def totalWeight (l : List Pixel) : ℚ := (l.map pixWeight).sum

/-- Modelled from the spec: weighted sum of the red channel. -/
def sumR (l : List Pixel) : ℚ := (l.map fun p => pixWeight p * p.r).sum

/-- Modelled from the spec: weighted sum of the green channel. -/
def sumG (l : List Pixel) : ℚ := (l.map fun p => pixWeight p * p.g).sum

/-- Modelled from the spec: weighted sum of the blue channel. -/
def sumB (l : List Pixel) : ℚ := (l.map fun p => pixWeight p * p.b).sum

/-- Modelled from the spec: luminance `0.299R + 0.587G + 0.114B`, floored
into one of 256 integer bins (clamped for totality on raw byte input). -/
def lumBucket (p : Pixel) : Fin 256 :=
  ⟨min 255 ((299 * p.r + 587 * p.g + 114 * p.b) / 1000),
   Nat.lt_succ_of_le (Nat.min_le_left _ _)⟩

/-- Modelled from the spec: the luminance histogram of the aggregate state:
accumulated weight per luminance bin. -/
def lumHist (l : List Pixel) (i : Fin 256) : ℚ :=
  (l.map fun p => if lumBucket p = i then pixWeight p else 0).sum

/-- First weighted moment of the luminance histogram. -/
def lumSum1 (l : List Pixel) : ℚ := ∑ i : Fin 256, lumHist l i * (i : ℕ)

/-- Second weighted moment of the luminance histogram. -/
def lumSum2 (l : List Pixel) : ℚ := ∑ i : Fin 256, lumHist l i * ((i : ℕ) : ℚ) ^ 2

/-- Mean luminance (junk value 0 when the total weight is 0). -/
def meanLum (l : List Pixel) : ℚ := lumSum1 l / totalWeight l

/-- Population variance of the luminance histogram. -/
def varLum (l : List Pixel) : ℚ :=
  if totalWeight l = 0 then 0 else lumSum2 l / totalWeight l - meanLum l ^ 2

/-- Modelled from the spec: brightness = mean luminance / 255 × 100, rounded
to an integer percentage; mid-gray default on a fully transparent image. -/
def brightnessOf (l : List Pixel) : ℤ :=
  if totalWeight l = 0 then 50 else round (meanLum l / 255 * 100)

/-- Modelled from the spec: contrast = population standard deviation of the
luminance histogram divided by the maximum possible standard deviation
(255/2), ×100, rounded to an integer percentage. -/
noncomputable def contrastOf (l : List Pixel) : ℤ :=
  if totalWeight l = 0 then 0
  else round (Real.sqrt ((varLum l : ℚ) : ℝ) / (255 / 2) * 100)

/-- Modelled from the spec: Shannon entropy (in bits) of the normalized
luminance histogram, `-Σ p_i log2 p_i` over the 256 bins. -/
noncomputable def entropyBitsOf (l : List Pixel) : ℝ :=
  if totalWeight l = 0 then 0
  else (∑ i : Fin 256, Real.negMulLog ((lumHist l i / totalWeight l : ℚ) : ℝ)) /
    Real.log 2

/-- Modelled from the spec: the reported entropy, fixed to two decimals. -/
noncomputable def entropyOf (l : List Pixel) : ℝ :=
  ((round (100 * entropyBitsOf l) : ℤ) : ℝ) / 100

/-- Lower-case hex digit for a value below 16. -/
def hexDigitChar (n : ℕ) : Char :=
  if n < 10 then Char.ofNat (48 + n) else Char.ofNat (87 + n)

/-- Two-digit lower-case hex rendering of a byte. -/
def byteHex (n : ℕ) : String :=
  String.mk [hexDigitChar (n / 16 % 16), hexDigitChar (n % 16)]

/-- Modelled from the spec: hex encoding `#rrggbb` of an RGB triple. -/
def hexColor (r g b : ℕ) : String := "#" ++ byteHex r ++ byteHex g ++ byteHex b

/-- Average color: RGB triple plus its hex encoding. -/
structure AverageColor where
  r : ℕ
  g : ℕ
  b : ℕ
  hex : String
deriving DecidableEq, Repr

/-- Clamp a rounded channel value into a byte. -/
def clampByte (z : ℤ) : ℕ := min 255 z.toNat

/-- Modelled from the spec: average color = channel sums / total weight,
rounded and clamped; mid-gray sentinel when the total weight is 0. -/
def avgColorOf (l : List Pixel) : AverageColor :=
  if totalWeight l = 0 then ⟨128, 128, 128, hexColor 128 128 128⟩
  else
    ⟨clampByte (round (sumR l / totalWeight l)),
      clampByte (round (sumG l / totalWeight l)),
      clampByte (round (sumB l / totalWeight l)),
      hexColor (clampByte (round (sumR l / totalWeight l)))
        (clampByte (round (sumG l / totalWeight l)))
        (clampByte (round (sumB l / totalWeight l)))⟩

/-- Modelled from the spec: quantized palette bucket of a pixel, 16 levels
per channel (4096 buckets), clamped for totality on raw byte input. -/
def colorBucket (p : Pixel) : ℕ :=
  min 15 (p.r / 16) * 256 + min 15 (p.g / 16) * 16 + min 15 (p.b / 16)

/-- Modelled from the spec: accumulated weight of one palette bucket. -/
def bucketWeight (l : List Pixel) (q : ℕ) : ℚ :=
  (l.map fun p => if colorBucket p = q then pixWeight p else 0).sum

/-- Modelled from the spec: representative color of a bucket = first-seen
non-transparent pixel falling into it. -/
def bucketRep (l : List Pixel) (q : ℕ) : Pixel :=
  (l.filter fun p => decide (0 < p.a) && decide (colorBucket p = q)).headD
    ⟨0, 0, 0, 0⟩

/-- Modelled from the spec: a bucket's share as a percentage of the total
weighted samples, one decimal place. -/
def pctOf (l : List Pixel) (q : ℕ) : ℚ :=
  ((⌊bucketWeight l q / totalWeight l * 1000⌋ : ℤ) : ℚ) / 10

/-- Buckets that received positive weight, in ascending bucket order. -/
def activeBuckets (l : List Pixel) : List ℕ :=
  (List.range 4096).filter fun q => decide (0 < bucketWeight l q)

/-- Ranking order on palette buckets: descending percentage, ties broken by
ascending (first-encountered, lower) bucket index. -/
def rank (l : List Pixel) (q1 q2 : ℕ) : Prop :=
  pctOf l q2 < pctOf l q1 ∨ (pctOf l q1 = pctOf l q2 ∧ q1 ≤ q2)

instance rankDecidable (l : List Pixel) : DecidableRel (rank l) := fun q1 q2 => by
  unfold rank
  exact inferInstance

/-- The positive-weight buckets sorted by `rank`. -/
def rankedBuckets (l : List Pixel) : List ℕ :=
  List.insertionSort (rank l) (activeBuckets l)

/-- Modelled from the spec: top-5 buckets by share, entries below a 1% share
dropped. -/
def paletteSelection (l : List Pixel) : List ℕ :=
  ((rankedBuckets l).take 5).filter fun q => decide (1 ≤ pctOf l q)

/-- A palette entry: hex-encoded representative color plus percentage. -/
structure PaletteColor where
  hex : String
  percentage : ℚ
deriving DecidableEq, Repr

/-- Palette entry reported for one selected bucket. -/
def paletteEntry (l : List Pixel) (q : ℕ) : PaletteColor :=
  ⟨hexColor (bucketRep l q).r (bucketRep l q).g (bucketRep l q).b, pctOf l q⟩

/-- Modelled from the spec: the dominant-color palette. -/
def paletteOf (l : List Pixel) : List PaletteColor :=
  (paletteSelection l).map (paletteEntry l)

/-- Modelled from the spec: gcd-reduced aspect-ratio pair `(W/g, H/g)`. -/
def ratioPair (w h : ℕ) : ℕ × ℕ := (w / Nat.gcd w h, h / Nat.gcd w h)

/-- Modelled from the spec: aspect-ratio description — the curated label when
the reduced pair matches a known ratio exactly, otherwise the reduced
integers printed directly. -/
def ratioLabel (w h : ℕ) : String :=
  let p := ratioPair w h
  if p = (1, 1) then "1:1"
  else if p = (4, 3) then "4:3"
  else if p = (3, 2) then "3:2"
  else if p = (16, 9) then "16:9"
  else if p = (9, 16) then "9:16"
  else if p = (21, 9) then "21:9"
  else toString p.1 ++ ":" ++ toString p.2

/-- Insight wording: low brightness. -/
def msgDark : String := "image appears dark/underexposed"

/-- Insight wording: low contrast. -/
def msgFlat : String := "image appears flat/low dynamic range"

/-- Insight wording: high entropy. -/
def msgDetail : String := "image has fine detail/noise"

/-- Insight wording: single dominant color above an 80% share. -/
def msgUniform : String := "image is visually uniform"

/-- Modelled from the spec: fixed rule table over the computed statistics;
all matching rules fire, in table order. -/
noncomputable def insightsOf (l : List Pixel) : List String :=
  (if brightnessOf l < 30 then [msgDark] else []) ++
    (if contrastOf l < 20 then [msgFlat] else []) ++
      (if 7 < entropyOf l then [msgDetail] else []) ++
        (match paletteOf l with
          | [p] => if 80 < p.percentage then [msgUniform] else []
          | _ => [])

/-- The analysis result structure of the engine. -/
structure ImageAnalysis where
  width : ℕ
  height : ℕ
  aspectRatio : String
  entropy : ℝ
  averageColor : AverageColor
  brightness : ℤ
  contrast : ℤ
  palette : List PaletteColor
  insights : List String

/-- The engine's error taxonomy: only `InvalidInput`. -/
inductive AnalysisError where
  | invalidInput
deriving DecidableEq, Repr

/-- Assemble the result record from the aggregate state of a valid buffer. -/
noncomputable def buildAnalysis (w h : ℕ) (l : List Pixel) : ImageAnalysis :=
  { width := w
    height := h
    aspectRatio := ratioLabel w h
    entropy := entropyOf l
    averageColor := avgColorOf l
    brightness := brightnessOf l
    contrast := contrastOf l
    palette := paletteOf l
    insights := insightsOf l }

/-- Modelled from the spec: the analysis entry point `analyzeImage` of the
engine (`lib/imageAnalysis.ts`, not present in the source tree).  Rejects a
non-positive dimension or a buffer whose length is not `W*H*4` with
`InvalidInput`; otherwise runs the single-pass pipeline. -/
noncomputable def analyzeImage (w h : ℤ) (data : List ℕ) :
    Except AnalysisError ImageAnalysis :=
  if w ≤ 0 ∨ h ≤ 0 ∨ (data.length : ℤ) ≠ w * h * 4 then .error .invalidInput
  else .ok (buildAnalysis w.toNat h.toNat (toPixels data))

/-!
The upload layer, embedded from the component source
(`app/components/ImageAnalyzer`).  The component's state and the side
effects performed by `runAnalysis` / `handleFiles` are modelled as an
explicit trace of UI events; the browser-supplied outcomes (the
`FileReader` result and the engine's result on the produced data URL) are
parameters of the trace.
-/

/-- The component's analysis state (source: `AnalysisState`). -/
inductive AnalysisState where
  | idle
  | loading (fileName : String)
  | error (message : String)
  | ready (fileName : String) (data : ImageAnalysis)

/-- A file handed to the upload layer: name, MIME type (source field
`file.type`) and size in bytes. -/
structure WebFile where
  name : String
  mimeType : String
  size : ℕ
deriving DecidableEq, Repr

/-- Source: the accepted MIME types. -/
def ACCEPTED_TYPES : List String :=
  ["image/png", "image/jpeg", "image/webp", "image/gif"]

/-- Source: the maximum accepted file size, 8 MiB. -/
def MAX_FILE_SIZE : ℕ := 8 * 1024 * 1024

/-- Source: `validateFile` — throws on a MIME type outside `ACCEPTED_TYPES`
or a size above `MAX_FILE_SIZE`; the thrown message is the error value. -/
def validateFile (f : WebFile) : Except String Unit :=
  if f.mimeType ∉ ACCEPTED_TYPES then
    .error "يجب اختيار صورة بصيغة PNG أو JPG أو WebP أو GIF."
  else if MAX_FILE_SIZE < f.size then
    .error "حجم الصورة يجب ألا يتجاوز 8 ميجابايت."
  else .ok ()

/-- Observable actions of `runAnalysis`: state updates, the preview update,
and the invocation of the engine on a data URL. -/
inductive UIEvent where
  | setAnalysis (s : AnalysisState)
  | setPreview (src : String)
  | callAnalyze (dataUrl : String)

/-- Source: `runAnalysis` — validates, enters `loading`, reads the file to a
data URL, sets the preview, invokes `analyzeImage` on the data URL and
transitions to `ready` or `error`; any thrown error is caught and becomes
the `error` state.  `read` is the `FileReader` outcome and `analyze` the
engine's outcome on a given data URL. -/
def runAnalysis (f : WebFile) (read : Except String String)
    (analyze : String → Except String ImageAnalysis) : List UIEvent :=
  match validateFile f with
  | .error msg => [.setAnalysis (.error msg)]
  | .ok _ =>
    match read with
    | .error msg => [.setAnalysis (.loading f.name), .setAnalysis (.error msg)]
    | .ok dataUrl =>
      match analyze dataUrl with
      | .ok d =>
        [.setAnalysis (.loading f.name), .setPreview dataUrl,
          .callAnalyze dataUrl, .setAnalysis (.ready f.name d)]
      | .error msg =>
        [.setAnalysis (.loading f.name), .setPreview dataUrl,
          .callAnalyze dataUrl, .setAnalysis (.error msg)]

/-- Source: `handleFiles` — returns immediately on a null or empty
`FileList`, otherwise analyzes exactly the first file. -/
def handleFiles (files : Option (List WebFile)) (read : Except String String)
    (analyze : String → Except String ImageAnalysis) : List UIEvent :=
  match files with
  | none => []
  | some [] => []
  | some (f :: _) => runAnalysis f read analyze

/-- Number of engine invocations recorded in a trace. -/
def callCount (tr : List UIEvent) : ℕ :=
  tr.countP fun e => match e with | .callAnalyze _ => true | _ => false

/-- The successive analysis states set by a trace. -/
def stateEvents (tr : List UIEvent) : List AnalysisState :=
  tr.filterMap fun e => match e with | .setAnalysis s => some s | _ => none

/-- An all-one-color, fully opaque RGBA buffer of `n` pixels. -/
def repeatRGBA : ℕ → ℕ → ℕ → ℕ → List ℕ
  | 0, _, _, _ => []
  | n + 1, r, g, b => r :: g :: b :: 255 :: repeatRGBA n r g b

/-- A uniform single-color fully opaque `w × h` buffer. -/
def uniformBuffer (w h r g b : ℕ) : List ℕ := repeatRGBA (w * h) r g b

/-!  ## General helper lemmas  -/

theorem pixWeight_nonneg (p : Pixel) : 0 ≤ pixWeight p := by
  unfold pixWeight; positivity

theorem totalWeight_nonneg (l : List Pixel) : 0 ≤ totalWeight l := by
  refine List.sum_nonneg ?_
  intro x hx
  rcases List.mem_map.mp hx with ⟨p, _, rfl⟩
  exact pixWeight_nonneg p

theorem round_le_round {α : Type} [LinearOrderedField α] [FloorRing α]
    {x y : α} (h : x ≤ y) : round x ≤ round y := by
  rw [round_eq, round_eq]
  exact Int.floor_le_floor (by linarith)

theorem lumHist_nonneg (l : List Pixel) (i : Fin 256) : 0 ≤ lumHist l i := by
  refine List.sum_nonneg ?_
  intro x hx
  rcases List.mem_map.mp hx with ⟨p, _, rfl⟩
  by_cases hb : lumBucket p = i
  · simpa [hb] using pixWeight_nonneg p
  · simp [hb]

theorem lumHist_cons (p : Pixel) (t : List Pixel) (i : Fin 256) :
    lumHist (p :: t) i =
      (if lumBucket p = i then pixWeight p else 0) + lumHist t i := by
  simp [lumHist]

theorem lumHist_sum (l : List Pixel) :
    ∑ i : Fin 256, lumHist l i = totalWeight l := by
  induction l with
  | nil => simp [lumHist, totalWeight]
  | cons p t ih =>
    have hstep :
        ∑ i : Fin 256, lumHist (p :: t) i =
          ∑ i : Fin 256,
            ((if lumBucket p = i then pixWeight p else 0) + lumHist t i) := by
      refine Finset.sum_congr rfl ?_
      intro i _
      exact lumHist_cons p t i
    rw [hstep, Finset.sum_add_distrib, Finset.sum_ite_eq, if_pos (Finset.mem_univ _), ih]
    simp [totalWeight]

theorem lumHist_le_total (l : List Pixel) (i : Fin 256) :
    lumHist l i ≤ totalWeight l := by
  rw [← lumHist_sum]
  exact Finset.single_le_sum (fun j _ => lumHist_nonneg l j) (Finset.mem_univ i)

/-!  ## C1  -/

/-- C1: for every buffer whose length differs from `W*H*4`, or whose width or
height is non-positive, `analyzeImage` returns the `InvalidInput` error (the
error branch carries no analysis data, so no partial result is exposed). -/
theorem spec_C1 (w h : ℤ) (data : List ℕ)
    (hbad : w ≤ 0 ∨ h ≤ 0 ∨ (data.length : ℤ) ≠ w * h * 4) :
    analyzeImage w h data = .error .invalidInput := by
  unfold analyzeImage
  rw [if_pos hbad]

theorem spec_C1_witness :
    ((3 : ℤ) ≤ 0 ∨ (3 : ℤ) ≤ 0 ∨ ((([0] : List ℕ).length : ℤ) ≠ 3 * 3 * 4)) ∧
      analyzeImage 3 3 [0] = .error .invalidInput :=
  ⟨by decide, spec_C1 3 3 [0] (by decide)⟩

/-!  ## C5  -/

/-- C5: for every valid buffer the reported aspect-ratio description is the
curated label when the gcd-reduced pair matches one of the known ratios and
the reduced integers printed directly otherwise (`ratioLabel`); in
particular 1920×1080 yields "16:9" and 101×100 yields "101:100". -/
theorem spec_C5 (w h : ℤ) (data : List ℕ) (hw : 0 < w) (hh : 0 < h)
    (hlen : (data.length : ℤ) = w * h * 4) :
    ∃ a, analyzeImage w h data = .ok a ∧
      a.aspectRatio = ratioLabel w.toNat h.toNat ∧
      (w = 1920 → h = 1080 → a.aspectRatio = "16:9") ∧
      (w = 101 → h = 100 → a.aspectRatio = "101:100") := by
  have hcond : ¬(w ≤ 0 ∨ h ≤ 0 ∨ (data.length : ℤ) ≠ w * h * 4) := by
    push_neg
    exact ⟨hw, hh, hlen⟩
  refine ⟨buildAnalysis w.toNat h.toNat (toPixels data), ?_, rfl, ?_, ?_⟩
  · unfold analyzeImage
    rw [if_neg hcond]
  · rintro rfl rfl
    show ratioLabel (1920 : ℤ).toNat (1080 : ℤ).toNat = "16:9"
    decide
  · rintro rfl rfl
    show ratioLabel (101 : ℤ).toNat (100 : ℤ).toNat = "101:100"
    decide

theorem spec_C5_witness :
    (0 : ℤ) < 1920 ∧ (0 : ℤ) < 1080 ∧
      (((List.replicate 8294400 (0 : ℕ)).length : ℤ) = 1920 * 1080 * 4) ∧
      ∃ a, analyzeImage 1920 1080 (List.replicate 8294400 (0 : ℕ)) = .ok a ∧
        a.aspectRatio = ratioLabel (1920 : ℤ).toNat (1080 : ℤ).toNat ∧
        ((1920 : ℤ) = 1920 → (1080 : ℤ) = 1080 → a.aspectRatio = "16:9") ∧
        ((1920 : ℤ) = 101 → (1080 : ℤ) = 100 → a.aspectRatio = "101:100") :=
  ⟨by norm_num, by norm_num, by rw [List.length_replicate]; norm_num,
    spec_C5 1920 1080 (List.replicate 8294400 (0 : ℕ)) (by norm_num) (by norm_num)
      (by rw [List.length_replicate]; norm_num)⟩

/-!  ## C7  -/

/-- C7: the analysis entry point is deterministic — it is a pure function of
the buffer, with no randomness or clock input in the model, so identical
buffers yield identical results. -/
theorem spec_C7 (w h : ℤ) (d1 d2 : List ℕ) (hEq : d1 = d2) :
    analyzeImage w h d1 = analyzeImage w h d2 := by
  rw [hEq]

theorem spec_C7_witness :
    ([0, 0, 0, 255] : List ℕ) = [0, 0, 0, 255] ∧
      analyzeImage 1 1 [0, 0, 0, 255] = analyzeImage 1 1 [0, 0, 0, 255] :=
  ⟨rfl, spec_C7 1 1 [0, 0, 0, 255] [0, 0, 0, 255] rfl⟩

/-!  ## C8  -/

/-- C8: a file with an unaccepted MIME type or a size above 8 MiB is rejected
by `validateFile` before the engine is invoked: the trace is exactly the
transition to the error state, with no engine call; conversely, any trace
that invokes the engine comes from a file passing `validateFile`. -/
theorem spec_C8 (f : WebFile) (read : Except String String)
    (analyze : String → Except String ImageAnalysis)
    (hbad : f.mimeType ∉ ACCEPTED_TYPES ∨ MAX_FILE_SIZE < f.size) :
    (∃ msg, validateFile f = .error msg ∧
      runAnalysis f read analyze = [.setAnalysis (.error msg)]) ∧
      (∀ u, UIEvent.callAnalyze u ∉ runAnalysis f read analyze) ∧
      (∀ (g : WebFile) (r2 : Except String String)
        (a2 : String → Except String ImageAnalysis) (u : String),
        UIEvent.callAnalyze u ∈ runAnalysis g r2 a2 → validateFile g = .ok ()) := by
  have hverr : ∃ msg, validateFile f = .error msg := by
    unfold validateFile
    by_cases hm : f.mimeType ∉ ACCEPTED_TYPES
    · exact ⟨_, by rw [if_pos hm]⟩
    · rcases hbad with hbad | hbad
      · exact absurd hbad hm
      · exact ⟨_, by rw [if_neg hm, if_pos hbad]⟩
  obtain ⟨msg, hmsg⟩ := hverr
  have htr : runAnalysis f read analyze = [.setAnalysis (.error msg)] := by
    unfold runAnalysis
    rw [hmsg]
  refine ⟨⟨msg, hmsg, htr⟩, ?_, ?_⟩
  · intro u
    rw [htr]
    simp
  · intro g r2 a2 u hmem
    cases hv : validateFile g with
    | ok v =>
      cases v
      rfl
    | error m =>
      rw [show runAnalysis g r2 a2 = [.setAnalysis (.error m)] by
        unfold runAnalysis; rw [hv]] at hmem
      simp at hmem

theorem spec_C8_witness :
    ((WebFile.mk "a.txt" "text/plain" 10).mimeType ∉ ACCEPTED_TYPES ∨
      MAX_FILE_SIZE < (WebFile.mk "a.txt" "text/plain" 10).size) ∧
      ((∃ msg, validateFile ⟨"a.txt", "text/plain", 10⟩ = .error msg ∧
        runAnalysis ⟨"a.txt", "text/plain", 10⟩ (.error "r")
          (fun _ => .error "x") = [.setAnalysis (.error msg)]) ∧
        (∀ u, UIEvent.callAnalyze u ∉
          runAnalysis ⟨"a.txt", "text/plain", 10⟩ (.error "r")
            (fun _ => .error "x")) ∧
        (∀ (g : WebFile) (r2 : Except String String)
          (a2 : String → Except String ImageAnalysis) (u : String),
          UIEvent.callAnalyze u ∈ runAnalysis g r2 a2 →
            validateFile g = .ok ())) :=
  ⟨by decide,
    spec_C8 ⟨"a.txt", "text/plain", 10⟩ (.error "r") (fun _ => .error "x")
      (by decide)⟩

/-!  ## C9  -/

/-- C9 as stated is refuted: for the accepted file below with a failing
`FileReader`, the component transitions into `loading` but the engine is
never invoked, so the engine is not invoked "exactly once per transition
into loading". -/
theorem spec_C9_counterexample :
    validateFile ⟨"a.png", "image/png", 4⟩ = .ok () ∧
      stateEvents (runAnalysis ⟨"a.png", "image/png", 4⟩ (.error "boom")
        (fun _ => .error "x")) = [.loading "a.png", .error "boom"] ∧
      callCount (runAnalysis ⟨"a.png", "image/png", 4⟩ (.error "boom")
        (fun _ => .error "x")) = 0 :=
  ⟨rfl, rfl, rfl⟩

/-- Reduction of `runAnalysis` on an accepted file with a failing read. -/
theorem runAnalysis_read_error (f : WebFile) (m : String)
    (analyze : String → Except String ImageAnalysis)
    (hok : validateFile f = .ok ()) :
    runAnalysis f (.error m) analyze =
      [.setAnalysis (.loading f.name), .setAnalysis (.error m)] := by
  unfold runAnalysis
  rw [hok]

/-- Reduction of `runAnalysis` on an accepted file, successful read and
successful engine run. -/
theorem runAnalysis_engine_ok (f : WebFile) (u : String)
    (analyze : String → Except String ImageAnalysis) (d : ImageAnalysis)
    (hok : validateFile f = .ok ()) (ha : analyze u = .ok d) :
    runAnalysis f (.ok u) analyze =
      [.setAnalysis (.loading f.name), .setPreview u, .callAnalyze u,
        .setAnalysis (.ready f.name d)] := by
  unfold runAnalysis
  rw [hok]
  show (match analyze u with
    | Except.ok d =>
      [UIEvent.setAnalysis (.loading f.name), UIEvent.setPreview u,
        UIEvent.callAnalyze u, UIEvent.setAnalysis (.ready f.name d)]
    | Except.error msg =>
      [UIEvent.setAnalysis (.loading f.name), UIEvent.setPreview u,
        UIEvent.callAnalyze u, UIEvent.setAnalysis (.error msg)]) = _
  rw [ha]

/-- Reduction of `runAnalysis` on an accepted file, successful read and a
throwing engine. -/
theorem runAnalysis_engine_error (f : WebFile) (u : String)
    (analyze : String → Except String ImageAnalysis) (m : String)
    (hok : validateFile f = .ok ()) (ha : analyze u = .error m) :
    runAnalysis f (.ok u) analyze =
      [.setAnalysis (.loading f.name), .setPreview u, .callAnalyze u,
        .setAnalysis (.error m)] := by
  unfold runAnalysis
  rw [hok]
  show (match analyze u with
    | Except.ok d =>
      [UIEvent.setAnalysis (.loading f.name), UIEvent.setPreview u,
        UIEvent.callAnalyze u, UIEvent.setAnalysis (.ready f.name d)]
    | Except.error msg =>
      [UIEvent.setAnalysis (.loading f.name), UIEvent.setPreview u,
        UIEvent.callAnalyze u, UIEvent.setAnalysis (.error msg)]) = _
  rw [ha]

/-- C9 (amended): for every accepted file, `runAnalysis` transitions into
`loading` and performs exactly one further state transition, to `ready` or
`error`; the engine is invoked exactly once whenever the file read
succeeds (and not at all when it fails), and the read error, the engine's
result, or the engine's thrown error determines the final transition. -/
theorem spec_C9 (f : WebFile) (read : Except String String)
    (analyze : String → Except String ImageAnalysis)
    (hok : validateFile f = .ok ()) :
    ∃ final,
      stateEvents (runAnalysis f read analyze) =
        [.loading f.name, final] ∧
      (∀ u, read = .ok u → callCount (runAnalysis f read analyze) = 1) ∧
      (∀ m, read = .error m → callCount (runAnalysis f read analyze) = 0) ∧
      (∀ u d, read = .ok u → analyze u = .ok d → final = .ready f.name d) ∧
      (∀ u m, read = .ok u → analyze u = .error m → final = .error m) ∧
      (∀ m, read = .error m → final = .error m) := by
  cases read with
  | error m =>
    have htr := runAnalysis_read_error f m analyze hok
    refine ⟨.error m, ?_, ?_, ?_, ?_, ?_, ?_⟩
    · rw [htr]; rfl
    · intro u hu; exact absurd hu (by simp)
    · intro m2 hm2; rw [htr]; rfl
    · intro u d hu; exact absurd hu (by simp)
    · intro u m2 hu; exact absurd hu (by simp)
    · intro m2 hm2; injection hm2 with h2; rw [h2]
  | ok u =>
    cases ha : analyze u with
    | ok d =>
      have htr := runAnalysis_engine_ok f u analyze d hok ha
      refine ⟨.ready f.name d, ?_, ?_, ?_, ?_, ?_, ?_⟩
      · rw [htr]; rfl
      · intro u2 hu2; rw [htr]; rfl
      · intro m hm; exact absurd hm (by simp)
      · intro u2 d2 hu2 ha2
        injection hu2 with h2
        subst h2
        rw [ha] at ha2
        injection ha2 with h3
        rw [h3]
      · intro u2 m2 hu2 ha2
        injection hu2 with h2
        subst h2
        rw [ha] at ha2
        exact absurd ha2 (by simp)
      · intro m hm; exact absurd hm (by simp)
    | error msg =>
      have htr := runAnalysis_engine_error f u analyze msg hok ha
      refine ⟨.error msg, ?_, ?_, ?_, ?_, ?_, ?_⟩
      · rw [htr]; rfl
      · intro u2 hu2; rw [htr]; rfl
      · intro m hm; exact absurd hm (by simp)
      · intro u2 d2 hu2 ha2
        injection hu2 with h2
        subst h2
        rw [ha] at ha2
        exact absurd ha2 (by simp)
      · intro u2 m2 hu2 ha2
        injection hu2 with h2
        subst h2
        rw [ha] at ha2
        injection ha2 with h3
        rw [h3]
      · intro m hm; exact absurd hm (by simp)

theorem spec_C9_witness :
    validateFile ⟨"b.png", "image/png", 7⟩ = .ok () ∧
      ∃ final,
        stateEvents (runAnalysis ⟨"b.png", "image/png", 7⟩ (.ok "url")
          (fun _ => .error "engine failed")) = [.loading "b.png", final] ∧
        (∀ u, (Except.ok "url" : Except String String) = .ok u →
          callCount (runAnalysis ⟨"b.png", "image/png", 7⟩ (.ok "url")
            (fun _ => .error "engine failed")) = 1) ∧
        (∀ m, (Except.ok "url" : Except String String) = .error m →
          callCount (runAnalysis ⟨"b.png", "image/png", 7⟩ (.ok "url")
            (fun _ => .error "engine failed")) = 0) ∧
        (∀ u d, (Except.ok "url" : Except String String) = .ok u →
          (fun _ => Except.error "engine failed" :
            String → Except String ImageAnalysis) u = .ok d →
          final = .ready "b.png" d) ∧
        (∀ u m, (Except.ok "url" : Except String String) = .ok u →
          (fun _ => Except.error "engine failed" :
            String → Except String ImageAnalysis) u = .error m →
          final = .error m) ∧
        (∀ m, (Except.ok "url" : Except String String) = .error m →
          final = .error m) :=
  ⟨rfl, spec_C9 ⟨"b.png", "image/png", 7⟩ (.ok "url")
    (fun _ => .error "engine failed") rfl⟩

/-!  ## C10  -/

/-- C10: `handleFiles` is a no-op (no state, preview or input change: an
empty event trace) on a null or empty file list, and otherwise validates
and analyzes exactly the first file, ignoring the rest. -/
theorem spec_C10 (read : Except String String)
    (analyze : String → Except String ImageAnalysis) :
    handleFiles none read analyze = [] ∧
      handleFiles (some []) read analyze = [] ∧
      ∀ (f : WebFile) (rest rest2 : List WebFile),
        handleFiles (some (f :: rest)) read analyze =
          runAnalysis f read analyze ∧
        handleFiles (some (f :: rest)) read analyze =
          handleFiles (some (f :: rest2)) read analyze :=
  ⟨rfl, rfl, fun _ _ _ => ⟨rfl, rfl⟩⟩

/-!  ## C2: bounds on brightness, contrast and entropy  -/

theorem totalWeight_pos_of_ne {l : List Pixel} (hT : totalWeight l ≠ 0) :
    0 < totalWeight l :=
  lt_of_le_of_ne (totalWeight_nonneg l) (Ne.symm hT)

theorem lumSum1_nonneg (l : List Pixel) : 0 ≤ lumSum1 l :=
  Finset.sum_nonneg fun i _ =>
    mul_nonneg (lumHist_nonneg l i) (Nat.cast_nonneg _)

theorem fin_cast_le_255 (i : Fin 256) : ((i : ℕ) : ℚ) ≤ 255 := by
  have : (i : ℕ) ≤ 255 := Nat.lt_succ_iff.mp i.isLt
  exact_mod_cast this

theorem lumSum1_le (l : List Pixel) : lumSum1 l ≤ 255 * totalWeight l := by
  rw [← lumHist_sum, Finset.mul_sum]
  refine Finset.sum_le_sum ?_
  intro i _
  calc lumHist l i * ((i : ℕ) : ℚ) ≤ lumHist l i * 255 :=
        mul_le_mul_of_nonneg_left (fin_cast_le_255 i) (lumHist_nonneg l i)
    _ = 255 * lumHist l i := mul_comm _ _

theorem lumSum2_le (l : List Pixel) : lumSum2 l ≤ 255 * lumSum1 l := by
  unfold lumSum1 lumSum2
  rw [Finset.mul_sum]
  refine Finset.sum_le_sum ?_
  intro i _
  have hh := lumHist_nonneg l i
  have hi0 : (0 : ℚ) ≤ ((i : ℕ) : ℚ) := Nat.cast_nonneg _
  have hi : ((i : ℕ) : ℚ) ≤ 255 := fin_cast_le_255 i
  nlinarith [mul_nonneg hh (mul_nonneg (sub_nonneg.mpr hi) hi0)]

theorem meanLum_nonneg (l : List Pixel) : 0 ≤ meanLum l :=
  div_nonneg (lumSum1_nonneg l) (totalWeight_nonneg l)

theorem meanLum_le_255 {l : List Pixel} (hT : totalWeight l ≠ 0) :
    meanLum l ≤ 255 := by
  have hT0 := totalWeight_pos_of_ne hT
  unfold meanLum
  rw [div_le_iff hT0]
  exact lumSum1_le l

theorem brightnessOf_nonneg (l : List Pixel) : 0 ≤ brightnessOf l := by
  unfold brightnessOf
  split
  · norm_num
  · have h : (0 : ℚ) ≤ meanLum l / 255 * 100 :=
      mul_nonneg (div_nonneg (meanLum_nonneg l) (by norm_num)) (by norm_num)
    calc (0 : ℤ) = round (0 : ℚ) := by simp
      _ ≤ round (meanLum l / 255 * 100) := round_le_round h

theorem brightnessOf_le (l : List Pixel) : brightnessOf l ≤ 100 := by
  unfold brightnessOf
  split
  · norm_num
  · rename_i hT
    have hμ := meanLum_le_255 hT
    have h : meanLum l / 255 * 100 ≤ 100 := by
      have h1 : meanLum l / 255 ≤ 1 := by
        rw [div_le_one (by norm_num : (0 : ℚ) < 255)]
        exact hμ
      nlinarith
    calc round (meanLum l / 255 * 100) ≤ round ((100 : ℚ)) := round_le_round h
      _ = 100 := by simp

theorem varLum_le (l : List Pixel) : varLum l ≤ 65025 / 4 := by
  unfold varLum
  split
  · norm_num
  · rename_i hT
    have hT0 := totalWeight_pos_of_ne hT
    have h2 : lumSum2 l / totalWeight l ≤ 255 * meanLum l := by
      rw [div_le_iff hT0]
      calc lumSum2 l ≤ 255 * lumSum1 l := lumSum2_le l
        _ = 255 * meanLum l * totalWeight l := by
              unfold meanLum
              field_simp
    have hμ0 := meanLum_nonneg l
    nlinarith [sq_nonneg (meanLum l - 255 / 2)]

theorem contrastOf_nonneg (l : List Pixel) : 0 ≤ contrastOf l := by
  unfold contrastOf
  split
  · norm_num
  · have h : (0 : ℝ) ≤ Real.sqrt ((varLum l : ℚ) : ℝ) / (255 / 2) * 100 := by
      positivity
    calc (0 : ℤ) = round (0 : ℝ) := by simp
      _ ≤ _ := round_le_round h

theorem contrastOf_le (l : List Pixel) : contrastOf l ≤ 100 := by
  unfold contrastOf
  split
  · norm_num
  · have hvar : varLum l ≤ 65025 / 4 := varLum_le l
    have h1 : ((varLum l : ℚ) : ℝ) ≤ ((65025 / 4 : ℚ) : ℝ) := by
      exact_mod_cast hvar
    have h2 : Real.sqrt (((65025 / 4 : ℚ) : ℝ)) = 255 / 2 := by
      rw [show (((65025 / 4 : ℚ)) : ℝ) = (255 / 2) ^ 2 by norm_num]
      exact Real.sqrt_sq (by norm_num)
    have hs : Real.sqrt ((varLum l : ℚ) : ℝ) ≤ 255 / 2 := by
      calc Real.sqrt ((varLum l : ℚ) : ℝ) ≤ Real.sqrt (((65025 / 4 : ℚ) : ℝ)) :=
            Real.sqrt_le_sqrt h1
        _ = 255 / 2 := h2
    have h3 : Real.sqrt ((varLum l : ℚ) : ℝ) / (255 / 2) * 100 ≤ 100 := by
      have h4 : Real.sqrt ((varLum l : ℚ) : ℝ) / (255 / 2) ≤ 1 :=
        div_le_one_of_le hs (by norm_num)
      nlinarith [Real.sqrt_nonneg ((varLum l : ℚ) : ℝ)]
    calc round (Real.sqrt ((varLum l : ℚ) : ℝ) / (255 / 2) * 100)
        ≤ round ((100 : ℝ)) := round_le_round h3
      _ = 100 := by simp

theorem hist_frac_sum {l : List Pixel} (hT : totalWeight l ≠ 0) :
    ∑ i : Fin 256, lumHist l i / totalWeight l = 1 := by
  rw [← Finset.sum_div, lumHist_sum, div_self hT]

theorem entropyBitsOf_nonneg (l : List Pixel) : 0 ≤ entropyBitsOf l := by
  unfold entropyBitsOf
  split
  · norm_num
  · rename_i hT
    have hT0 := totalWeight_pos_of_ne hT
    refine div_nonneg (Finset.sum_nonneg ?_) (Real.log_pos one_lt_two).le
    intro i _
    refine Real.negMulLog_nonneg ?_ ?_
    · have : (0 : ℚ) ≤ lumHist l i / totalWeight l :=
        div_nonneg (lumHist_nonneg l i) (totalWeight_nonneg l)
      exact_mod_cast this
    · have : lumHist l i / totalWeight l ≤ 1 := by
        rw [div_le_one hT0]
        exact lumHist_le_total l i
      exact_mod_cast this

theorem entropyBitsOf_le (l : List Pixel) : entropyBitsOf l ≤ 8 := by
  unfold entropyBitsOf
  split
  · norm_num
  · rename_i hT
    have hT0 := totalWeight_pos_of_ne hT
    set p : Fin 256 → ℝ := fun i => ((lumHist l i / totalWeight l : ℚ) : ℝ) with hp
    have hpsum : ∑ i : Fin 256, p i = 1 := by
      rw [hp]
      rw [show (∑ i : Fin 256, ((lumHist l i / totalWeight l : ℚ) : ℝ)) =
          (((∑ i : Fin 256, lumHist l i / totalWeight l : ℚ)) : ℝ) by
        push_cast
        rfl]
      rw [hist_frac_sum hT]
      norm_num
    have hp0 : ∀ i ∈ Finset.univ, p i ∈ Set.Ici (0 : ℝ) := by
      intro i _
      have h0 : (0 : ℚ) ≤ lumHist l i / totalWeight l :=
        div_nonneg (lumHist_nonneg l i) (totalWeight_nonneg l)
      simp only [Set.mem_Ici, hp]
      exact_mod_cast h0
    have hw0 : ∀ i ∈ (Finset.univ : Finset (Fin 256)), (0 : ℝ) ≤ (256 : ℝ)⁻¹ := by
      intro i _
      norm_num
    have hw1 : ∑ _i : Fin 256, (256 : ℝ)⁻¹ = 1 := by
      rw [Finset.sum_const, Finset.card_univ, Fintype.card_fin, nsmul_eq_mul]
      norm_num
    have hJ := Real.concaveOn_negMulLog.le_map_sum hw0 hw1 hp0
    have hL : ∑ i : Fin 256, (256 : ℝ)⁻¹ • Real.negMulLog (p i) =
        (256 : ℝ)⁻¹ * ∑ i : Fin 256, Real.negMulLog (p i) := by
      rw [Finset.mul_sum]
      refine Finset.sum_congr rfl ?_
      intro i _
      rw [smul_eq_mul]
    have hsmul : (∑ i : Fin 256, (256 : ℝ)⁻¹ • p i) = (256 : ℝ)⁻¹ := by
      rw [show (∑ i : Fin 256, (256 : ℝ)⁻¹ • p i) =
          (256 : ℝ)⁻¹ * ∑ i : Fin 256, p i by
        rw [Finset.mul_sum]
        refine Finset.sum_congr rfl ?_
        intro i _
        rw [smul_eq_mul]]
      rw [hpsum, mul_one]
    rw [hL, hsmul] at hJ
    have hlog : Real.negMulLog ((256 : ℝ)⁻¹) = (256 : ℝ)⁻¹ * Real.log 256 := by
      unfold Real.negMulLog
      rw [Real.log_inv]
      ring
    have hsum_le : ∑ i : Fin 256, Real.negMulLog (p i) ≤ Real.log 256 := by
      rw [hlog] at hJ
      nlinarith [hJ]
    have h256 : Real.log 256 = 8 * Real.log 2 := by
      rw [show (256 : ℝ) = 2 ^ (8 : ℕ) by norm_num, Real.log_pow]
      norm_num
    rw [div_le_iff (Real.log_pos one_lt_two)]
    rw [h256] at hsum_le
    exact hsum_le

theorem entropyOf_nonneg (l : List Pixel) : 0 ≤ entropyOf l := by
  unfold entropyOf
  have h : (0 : ℤ) ≤ round (100 * entropyBitsOf l) := by
    calc (0 : ℤ) = round (0 : ℝ) := by simp
      _ ≤ _ := round_le_round (by
          have := entropyBitsOf_nonneg l
          linarith)
  have h2 : (0 : ℝ) ≤ ((round (100 * entropyBitsOf l) : ℤ) : ℝ) := by
    exact_mod_cast h
  positivity

theorem entropyOf_le (l : List Pixel) : entropyOf l ≤ 8 := by
  unfold entropyOf
  have h : round (100 * entropyBitsOf l) ≤ 800 := by
    calc round (100 * entropyBitsOf l) ≤ round ((800 : ℝ)) :=
          round_le_round (by
            have := entropyBitsOf_le l
            linarith)
      _ = 800 := by simp
  have h2 : ((round (100 * entropyBitsOf l) : ℤ) : ℝ) ≤ 800 := by
    exact_mod_cast h
  linarith

/-- C2: for every valid pixel buffer, the returned analysis has brightness in
[0,100], contrast in [0,100] and entropy in [0,8.00]. -/
theorem spec_C2 (w h : ℤ) (data : List ℕ) (hw : 0 < w) (hh : 0 < h)
    (hlen : (data.length : ℤ) = w * h * 4) :
    ∃ a, analyzeImage w h data = .ok a ∧
      0 ≤ a.brightness ∧ a.brightness ≤ 100 ∧
      0 ≤ a.contrast ∧ a.contrast ≤ 100 ∧
      0 ≤ a.entropy ∧ a.entropy ≤ 8 := by
  have hcond : ¬(w ≤ 0 ∨ h ≤ 0 ∨ (data.length : ℤ) ≠ w * h * 4) := by
    push_neg
    exact ⟨hw, hh, hlen⟩
  refine ⟨buildAnalysis w.toNat h.toNat (toPixels data), ?_,
    brightnessOf_nonneg _, brightnessOf_le _, contrastOf_nonneg _,
    contrastOf_le _, entropyOf_nonneg _, entropyOf_le _⟩
  unfold analyzeImage
  rw [if_neg hcond]

theorem spec_C2_witness :
    (0 : ℤ) < 1 ∧ (0 : ℤ) < 1 ∧
      ((([10, 20, 30, 255] : List ℕ).length : ℤ) = 1 * 1 * 4) ∧
      ∃ a, analyzeImage 1 1 [10, 20, 30, 255] = .ok a ∧
        0 ≤ a.brightness ∧ a.brightness ≤ 100 ∧
        0 ≤ a.contrast ∧ a.contrast ≤ 100 ∧
        0 ≤ a.entropy ∧ a.entropy ≤ 8 :=
  ⟨by norm_num, by norm_num, by decide,
    spec_C2 1 1 [10, 20, 30, 255] (by norm_num) (by norm_num) (by decide)⟩

/-!  ## C4: fully transparent image  -/

theorem pixWeight_of_alpha_zero {p : Pixel} (h : p.a = 0) : pixWeight p = 0 := by
  simp [pixWeight, h]

theorem totalWeight_eq_zero {l : List Pixel} (h : ∀ p ∈ l, p.a = 0) :
    totalWeight l = 0 := by
  unfold totalWeight
  refine List.sum_eq_zero ?_
  intro x hx
  rcases List.mem_map.mp hx with ⟨p, hp, rfl⟩
  exact pixWeight_of_alpha_zero (h p hp)

theorem bucketWeight_eq_zero {l : List Pixel} (h : ∀ p ∈ l, p.a = 0) (q : ℕ) :
    bucketWeight l q = 0 := by
  unfold bucketWeight
  refine List.sum_eq_zero ?_
  intro x hx
  rcases List.mem_map.mp hx with ⟨p, hp, rfl⟩
  rw [pixWeight_of_alpha_zero (h p hp)]
  simp

theorem activeBuckets_eq_nil {l : List Pixel}
    (hz : ∀ q, ¬0 < bucketWeight l q) : activeBuckets l = [] := by
  unfold activeBuckets
  refine List.filter_eq_nil_iff.mpr ?_
  intro q _
  simp only [decide_eq_true_eq]
  exact hz q

theorem paletteOf_eq_nil {l : List Pixel} (h : activeBuckets l = []) :
    paletteOf l = [] := by
  unfold paletteOf paletteSelection rankedBuckets
  rw [h]
  rfl

/-- C4: a valid buffer in which every pixel is fully transparent is analyzed
without error: the total weighted sample count is 0, the palette is empty,
and the average color is the mid-gray sentinel. -/
theorem spec_C4 (w h : ℤ) (data : List ℕ) (hw : 0 < w) (hh : 0 < h)
    (hlen : (data.length : ℤ) = w * h * 4)
    (halpha : ∀ p ∈ toPixels data, p.a = 0) :
    ∃ a, analyzeImage w h data = .ok a ∧
      totalWeight (toPixels data) = 0 ∧
      a.palette = [] ∧
      a.averageColor = ⟨128, 128, 128, hexColor 128 128 128⟩ := by
  have hcond : ¬(w ≤ 0 ∨ h ≤ 0 ∨ (data.length : ℤ) ≠ w * h * 4) := by
    push_neg
    exact ⟨hw, hh, hlen⟩
  have hT : totalWeight (toPixels data) = 0 := totalWeight_eq_zero halpha
  have hpal : paletteOf (toPixels data) = [] := by
    refine paletteOf_eq_nil (activeBuckets_eq_nil ?_)
    intro q
    rw [bucketWeight_eq_zero halpha q]
    exact lt_irrefl 0
  refine ⟨buildAnalysis w.toNat h.toNat (toPixels data), ?_, hT, ?_, ?_⟩
  · unfold analyzeImage
    rw [if_neg hcond]
  · show paletteOf (toPixels data) = []
    exact hpal
  · show avgColorOf (toPixels data) = _
    unfold avgColorOf
    rw [if_pos hT]

theorem spec_C4_witness :
    (0 : ℤ) < 1 ∧ (0 : ℤ) < 1 ∧
      ((([5, 6, 7, 0] : List ℕ).length : ℤ) = 1 * 1 * 4) ∧
      (∀ p ∈ toPixels [5, 6, 7, 0], p.a = 0) ∧
      ∃ a, analyzeImage 1 1 [5, 6, 7, 0] = .ok a ∧
        totalWeight (toPixels [5, 6, 7, 0]) = 0 ∧
        a.palette = [] ∧
        a.averageColor = ⟨128, 128, 128, hexColor 128 128 128⟩ :=
  ⟨by norm_num, by norm_num, by decide, by decide,
    spec_C4 1 1 [5, 6, 7, 0] (by norm_num) (by norm_num) (by decide) (by decide)⟩

/-!  ## C3: uniform single-color opaque image  -/

theorem toPixels_repeatRGBA (n r g b : ℕ) :
    toPixels (repeatRGBA n r g b) = List.replicate n ⟨r, g, b, 255⟩ := by
  induction n with
  | zero => rfl
  | succ m ih =>
    show toPixels (r :: g :: b :: 255 :: repeatRGBA m r g b) = _
    rw [List.replicate_succ]
    show Pixel.mk r g b 255 :: toPixels (repeatRGBA m r g b) = _
    rw [ih]

theorem repeatRGBA_length (n r g b : ℕ) :
    (repeatRGBA n r g b).length = 4 * n := by
  induction n with
  | zero => rfl
  | succ m ih =>
    show (r :: g :: b :: 255 :: repeatRGBA m r g b).length = _
    simp only [List.length_cons, ih]
    omega

theorem sum_map_replicate (n : ℕ) (px : Pixel) (f : Pixel → ℚ) :
    ((List.replicate n px).map f).sum = n * f px := by
  rw [List.map_replicate, List.sum_replicate, nsmul_eq_mul]

theorem pixWeight_full (r g b : ℕ) : pixWeight ⟨r, g, b, 255⟩ = 1 := by
  unfold pixWeight
  norm_num

theorem totalWeight_replicate (n r g b : ℕ) :
    totalWeight (List.replicate n ⟨r, g, b, 255⟩) = n := by
  unfold totalWeight
  rw [sum_map_replicate, pixWeight_full, mul_one]

theorem lumHist_replicate (n r g b : ℕ) (i : Fin 256) :
    lumHist (List.replicate n ⟨r, g, b, 255⟩) i =
      if lumBucket ⟨r, g, b, 255⟩ = i then (n : ℚ) else 0 := by
  unfold lumHist
  rw [sum_map_replicate]
  split
  · rw [pixWeight_full, mul_one]
  · rw [mul_zero]

theorem lumSum1_replicate (n r g b : ℕ) :
    lumSum1 (List.replicate n ⟨r, g, b, 255⟩) =
      n * ((lumBucket ⟨r, g, b, 255⟩ : ℕ) : ℚ) := by
  unfold lumSum1
  rw [show (∑ i : Fin 256,
      lumHist (List.replicate n ⟨r, g, b, 255⟩) i * ((i : ℕ) : ℚ)) =
      ∑ i : Fin 256, if lumBucket ⟨r, g, b, 255⟩ = i then
        (n : ℚ) * ((i : ℕ) : ℚ) else 0 by
    refine Finset.sum_congr rfl ?_
    intro i _
    rw [lumHist_replicate, ite_mul, zero_mul]]
  rw [Finset.sum_ite_eq, if_pos (Finset.mem_univ _)]

theorem lumSum2_replicate (n r g b : ℕ) :
    lumSum2 (List.replicate n ⟨r, g, b, 255⟩) =
      n * ((lumBucket ⟨r, g, b, 255⟩ : ℕ) : ℚ) ^ 2 := by
  unfold lumSum2
  rw [show (∑ i : Fin 256,
      lumHist (List.replicate n ⟨r, g, b, 255⟩) i * ((i : ℕ) : ℚ) ^ 2) =
      ∑ i : Fin 256, if lumBucket ⟨r, g, b, 255⟩ = i then
        (n : ℚ) * ((i : ℕ) : ℚ) ^ 2 else 0 by
    refine Finset.sum_congr rfl ?_
    intro i _
    rw [lumHist_replicate, ite_mul, zero_mul]]
  rw [Finset.sum_ite_eq, if_pos (Finset.mem_univ _)]

theorem varLum_replicate {n : ℕ} (r g b : ℕ) (hn : n ≠ 0) :
    varLum (List.replicate n ⟨r, g, b, 255⟩) = 0 := by
  have hnQ : (n : ℚ) ≠ 0 := Nat.cast_ne_zero.mpr hn
  unfold varLum meanLum
  rw [totalWeight_replicate, lumSum1_replicate, lumSum2_replicate, if_neg hnQ]
  field_simp

theorem contrastOf_replicate {n : ℕ} (r g b : ℕ) (hn : n ≠ 0) :
    contrastOf (List.replicate n ⟨r, g, b, 255⟩) = 0 := by
  have hnQ : (n : ℚ) ≠ 0 := Nat.cast_ne_zero.mpr hn
  unfold contrastOf
  rw [totalWeight_replicate, if_neg hnQ, varLum_replicate r g b hn]
  rw [Rat.cast_zero, Real.sqrt_zero, zero_div, zero_mul, round_zero]

theorem entropyBitsOf_replicate {n : ℕ} (r g b : ℕ) (hn : n ≠ 0) :
    entropyBitsOf (List.replicate n ⟨r, g, b, 255⟩) = 0 := by
  have hnQ : (n : ℚ) ≠ 0 := Nat.cast_ne_zero.mpr hn
  unfold entropyBitsOf
  rw [totalWeight_replicate, if_neg hnQ]
  rw [show (∑ i : Fin 256, Real.negMulLog
      ((lumHist (List.replicate n ⟨r, g, b, 255⟩) i / (n : ℚ) : ℚ) : ℝ)) =
      0 from Finset.sum_eq_zero ?_, zero_div]
  intro i _
  rw [lumHist_replicate]
  by_cases hbx : lumBucket ⟨r, g, b, 255⟩ = i
  · rw [if_pos hbx, div_self hnQ, Rat.cast_one, Real.negMulLog_one]
  · rw [if_neg hbx, zero_div, Rat.cast_zero, Real.negMulLog_zero]

theorem entropyOf_replicate {n : ℕ} (r g b : ℕ) (hn : n ≠ 0) :
    entropyOf (List.replicate n ⟨r, g, b, 255⟩) = 0 := by
  unfold entropyOf
  rw [entropyBitsOf_replicate r g b hn, mul_zero, round_zero, Int.cast_zero,
    zero_div]

theorem sumR_replicate (n r g b : ℕ) :
    sumR (List.replicate n ⟨r, g, b, 255⟩) = n * r := by
  unfold sumR
  rw [sum_map_replicate]
  simp [pixWeight_full]

theorem sumG_replicate (n r g b : ℕ) :
    sumG (List.replicate n ⟨r, g, b, 255⟩) = n * g := by
  unfold sumG
  rw [sum_map_replicate]
  simp [pixWeight_full]

theorem sumB_replicate (n r g b : ℕ) :
    sumB (List.replicate n ⟨r, g, b, 255⟩) = n * b := by
  unfold sumB
  rw [sum_map_replicate]
  simp [pixWeight_full]

theorem avgColorOf_replicate {n r g b : ℕ} (hn : n ≠ 0)
    (hr : r ≤ 255) (hg : g ≤ 255) (hb : b ≤ 255) :
    avgColorOf (List.replicate n ⟨r, g, b, 255⟩) =
      ⟨r, g, b, hexColor r g b⟩ := by
  have hnQ : (n : ℚ) ≠ 0 := Nat.cast_ne_zero.mpr hn
  have hdiv : ∀ c : ℕ, (n : ℚ) * c / n = c := by
    intro c
    rw [mul_comm, mul_div_assoc, div_self hnQ, mul_one]
  have hcl : ∀ c : ℕ, c ≤ 255 → clampByte (round ((c : ℕ) : ℚ)) = c := by
    intro c hc
    rw [round_natCast]
    unfold clampByte
    rw [Int.toNat_natCast]
    exact Nat.min_eq_right hc
  unfold avgColorOf
  rw [if_neg (by rw [totalWeight_replicate]; exact hnQ)]
  rw [sumR_replicate, sumG_replicate, sumB_replicate, totalWeight_replicate,
    hdiv r, hdiv g, hdiv b, hcl r hr, hcl g hg, hcl b hb]

theorem bucketWeight_replicate (n r g b : ℕ) (q : ℕ) :
    bucketWeight (List.replicate n ⟨r, g, b, 255⟩) q =
      if colorBucket ⟨r, g, b, 255⟩ = q then (n : ℚ) else 0 := by
  unfold bucketWeight
  rw [sum_map_replicate]
  split
  · rw [pixWeight_full, mul_one]
  · rw [mul_zero]

theorem colorBucket_lt (p : Pixel) : colorBucket p < 4096 := by
  unfold colorBucket
  have h1 := Nat.min_le_left 15 (p.r / 16)
  have h2 := Nat.min_le_left 15 (p.g / 16)
  have h3 := Nat.min_le_left 15 (p.b / 16)
  omega

theorem filter_range_eq_nil (pb : ℕ → Bool) (k m : ℕ)
    (hm : ∀ q, pb q = true ↔ q = k) (hk : m ≤ k) :
    (List.range m).filter pb = [] := by
  refine List.filter_eq_nil_iff.mpr ?_
  intro q hq
  have hqm : q < m := List.mem_range.mp hq
  intro ht
  have := (hm q).mp ht
  omega

theorem filter_range_eq_single (pb : ℕ → Bool) (k m : ℕ)
    (hm : ∀ q, pb q = true ↔ q = k) (hk : k < m) :
    (List.range m).filter pb = [k] := by
  induction m with
  | zero => omega
  | succ m ih =>
    rw [List.range_succ, List.filter_append]
    rcases Nat.lt_succ_iff_lt_or_eq.mp hk with hlt | heq
    · rw [ih hlt]
      have hf : pb m = false := by
        rcases hb : pb m with _ | _
        · rfl
        · have := (hm m).mp hb
          omega
      simp [hf]
    · subst heq
      rw [filter_range_eq_nil pb k k hm le_rfl]
      have ht : pb k = true := (hm k).mpr rfl
      simp [ht]

theorem activeBuckets_replicate {n : ℕ} (r g b : ℕ) (hn : 0 < n) :
    activeBuckets (List.replicate n ⟨r, g, b, 255⟩) =
      [colorBucket ⟨r, g, b, 255⟩] := by
  unfold activeBuckets
  refine filter_range_eq_single _ _ _ ?_ (colorBucket_lt _)
  intro q
  rw [decide_eq_true_eq, bucketWeight_replicate]
  constructor
  · intro hpos
    by_contra hne
    rw [if_neg (fun hc => hne hc.symm)] at hpos
    exact lt_irrefl 0 hpos
  · intro hq
    rw [if_pos hq.symm]
    exact_mod_cast hn

theorem pctOf_replicate {n : ℕ} (r g b : ℕ) (hn : n ≠ 0) :
    pctOf (List.replicate n ⟨r, g, b, 255⟩) (colorBucket ⟨r, g, b, 255⟩) =
      100 := by
  have hnQ : (n : ℚ) ≠ 0 := Nat.cast_ne_zero.mpr hn
  unfold pctOf
  rw [bucketWeight_replicate, if_pos rfl, totalWeight_replicate, div_self hnQ,
    one_mul]
  rw [show (1000 : ℚ) = ((1000 : ℤ) : ℚ) by norm_num, Int.floor_intCast]
  norm_num

theorem bucketRep_replicate {n : ℕ} (r g b : ℕ) (hn : 0 < n) :
    bucketRep (List.replicate n ⟨r, g, b, 255⟩) (colorBucket ⟨r, g, b, 255⟩) =
      ⟨r, g, b, 255⟩ := by
  cases n with
  | zero => omega
  | succ m =>
    rw [List.replicate_succ]
    unfold bucketRep
    rw [List.filter_cons]
    have ht : (decide (0 < (⟨r, g, b, 255⟩ : Pixel).a) &&
        decide (colorBucket (⟨r, g, b, 255⟩ : Pixel) =
          colorBucket (⟨r, g, b, 255⟩ : Pixel))) = true := by
      simp
    rw [if_pos ht]
    rfl

theorem rankedBuckets_replicate {n : ℕ} (r g b : ℕ) (hn : 0 < n) :
    rankedBuckets (List.replicate n ⟨r, g, b, 255⟩) =
      [colorBucket ⟨r, g, b, 255⟩] := by
  unfold rankedBuckets
  rw [activeBuckets_replicate r g b hn]
  rfl

theorem paletteOf_replicate {n : ℕ} (r g b : ℕ) (hn : 0 < n) :
    paletteOf (List.replicate n ⟨r, g, b, 255⟩) =
      [⟨hexColor r g b, 100⟩] := by
  have hpct := pctOf_replicate r g b (Nat.pos_iff_ne_zero.mp hn)
  unfold paletteOf paletteSelection
  rw [rankedBuckets_replicate r g b hn]
  rw [show List.take 5 [colorBucket (⟨r, g, b, 255⟩ : Pixel)] =
      [colorBucket (⟨r, g, b, 255⟩ : Pixel)] from rfl]
  rw [List.filter_cons]
  rw [if_pos (by rw [decide_eq_true_eq, hpct]; norm_num)]
  rw [List.filter_nil, List.map_cons, List.map_nil]
  unfold paletteEntry
  rw [bucketRep_replicate r g b hn, hpct]

theorem insightsOf_replicate_mem {n : ℕ} (r g b : ℕ) (hn : 0 < n) :
    msgUniform ∈ insightsOf (List.replicate n ⟨r, g, b, 255⟩) := by
  unfold insightsOf
  rw [paletteOf_replicate r g b hn]
  rw [show (match [(⟨hexColor r g b, 100⟩ : PaletteColor)] with
      | [p] => if 80 < p.percentage then [msgUniform] else []
      | _ => ([] : List String)) =
      if 80 < (100 : ℚ) then [msgUniform] else [] from rfl]
  refine List.mem_append_right _ ?_
  rw [if_pos (by norm_num : (80 : ℚ) < 100)]
  exact List.mem_singleton_self msgUniform

/-- C3: a uniform single-color fully opaque image of color `C = (r,g,b)` is
analyzed to: average color exactly `C`, contrast 0, entropy 0.00, palette
equal to the single entry `{C, 100.0%}`, and insights including the
"visually uniform" observation. -/
theorem spec_C3 (w h r g b : ℕ) (hw : 0 < w) (hh : 0 < h)
    (hr : r ≤ 255) (hg : g ≤ 255) (hb : b ≤ 255) :
    ∃ a, analyzeImage w h (uniformBuffer w h r g b) = .ok a ∧
      a.averageColor = ⟨r, g, b, hexColor r g b⟩ ∧
      a.contrast = 0 ∧
      a.entropy = 0 ∧
      a.palette = [⟨hexColor r g b, 100⟩] ∧
      msgUniform ∈ a.insights := by
  have hn : 0 < w * h := Nat.mul_pos hw hh
  have hn0 : w * h ≠ 0 := Nat.pos_iff_ne_zero.mp hn
  have hpix : toPixels (uniformBuffer w h r g b) =
      List.replicate (w * h) ⟨r, g, b, 255⟩ := toPixels_repeatRGBA _ _ _ _
  have hcond : ¬((w : ℤ) ≤ 0 ∨ (h : ℤ) ≤ 0 ∨
      (((uniformBuffer w h r g b).length : ℤ) ≠ (w : ℤ) * (h : ℤ) * 4)) := by
    push_neg
    refine ⟨by exact_mod_cast hw, by exact_mod_cast hh, ?_⟩
    unfold uniformBuffer
    rw [repeatRGBA_length]
    push_cast
    ring
  refine ⟨buildAnalysis (w : ℤ).toNat (h : ℤ).toNat
    (toPixels (uniformBuffer w h r g b)), ?_, ?_, ?_, ?_, ?_, ?_⟩
  · unfold analyzeImage
    rw [if_neg hcond]
  · show avgColorOf _ = _
    rw [hpix]
    exact avgColorOf_replicate hn0 hr hg hb
  · show contrastOf _ = 0
    rw [hpix]
    exact contrastOf_replicate r g b hn0
  · show entropyOf _ = 0
    rw [hpix]
    exact entropyOf_replicate r g b hn0
  · show paletteOf _ = _
    rw [hpix]
    exact paletteOf_replicate r g b hn
  · show msgUniform ∈ insightsOf _
    rw [hpix]
    exact insightsOf_replicate_mem r g b hn

theorem spec_C3_witness :
    0 < 2 ∧ 0 < 3 ∧ 10 ≤ 255 ∧ 20 ≤ 255 ∧ 30 ≤ 255 ∧
      ∃ a, analyzeImage 2 3 (uniformBuffer 2 3 10 20 30) = .ok a ∧
        a.averageColor = ⟨10, 20, 30, hexColor 10 20 30⟩ ∧
        a.contrast = 0 ∧
        a.entropy = 0 ∧
        a.palette = [⟨hexColor 10 20 30, 100⟩] ∧
        msgUniform ∈ a.insights :=
  ⟨by norm_num, by norm_num, by norm_num, by norm_num, by norm_num,
    spec_C3 2 3 10 20 30 (by norm_num) (by norm_num) (by norm_num)
      (by norm_num) (by norm_num)⟩

/-!  ## C6: palette invariants  -/

theorem bucketWeight_nonneg (l : List Pixel) (q : ℕ) :
    0 ≤ bucketWeight l q := by
  refine List.sum_nonneg ?_
  intro x hx
  rcases List.mem_map.mp hx with ⟨p, _, rfl⟩
  by_cases hb : colorBucket p = q
  · simpa [hb] using pixWeight_nonneg p
  · simp [hb]

theorem sum_map_add {α : Type} (l : List α) (f g : α → ℚ) :
    (l.map fun x => f x + g x).sum = (l.map f).sum + (l.map g).sum := by
  induction l with
  | nil => simp
  | cons a t ih =>
    simp only [List.map_cons, List.sum_cons, ih]
    ring

theorem range_sum_ite (m k : ℕ) (c : ℚ) (hk : k < m) :
    ((List.range m).map fun q => if k = q then c else 0).sum = c := by
  induction m with
  | zero => omega
  | succ m ih =>
    rw [List.range_succ, List.map_append, List.sum_append]
    rcases Nat.lt_succ_iff_lt_or_eq.mp hk with hlt | heq
    · rw [ih hlt]
      have : k ≠ m := by omega
      simp [this]
    · subst heq
      have hz : ((List.range k).map fun q => if k = q then c else 0).sum = 0 := by
        refine List.sum_eq_zero ?_
        intro x hx
        rcases List.mem_map.mp hx with ⟨q, hq, rfl⟩
        have : q < k := List.mem_range.mp hq
        rw [if_neg (by omega)]
      rw [hz]
      simp

theorem bucketWeight_range_sum (l : List Pixel) :
    ((List.range 4096).map (bucketWeight l)).sum = totalWeight l := by
  induction l with
  | nil =>
    rw [show totalWeight [] = 0 from rfl]
    refine List.sum_eq_zero ?_
    intro x hx
    rcases List.mem_map.mp hx with ⟨q, _, rfl⟩
    rfl
  | cons p t ih =>
    have hcongr : (List.range 4096).map (bucketWeight (p :: t)) =
        (List.range 4096).map fun q =>
          (if colorBucket p = q then pixWeight p else 0) + bucketWeight t q := by
      refine List.map_congr_left ?_
      intro q _
      simp [bucketWeight]
    rw [hcongr, sum_map_add, range_sum_ite 4096 (colorBucket p) (pixWeight p)
      (colorBucket_lt p), ih]
    simp [totalWeight]

theorem sum_filter_map_eq (l : List ℕ) (pb : ℕ → Bool) (f : ℕ → ℚ)
    (h : ∀ x ∈ l, pb x = false → f x = 0) :
    ((l.filter pb).map f).sum = (l.map f).sum := by
  induction l with
  | nil => rfl
  | cons a t ih =>
    have hmem : ∀ x ∈ t, pb x = false → f x = 0 := fun x hx =>
      h x (List.mem_cons_of_mem a hx)
    rw [List.filter_cons]
    cases hpb : pb a with
    | true =>
      rw [if_pos rfl]
      simp only [List.map_cons, List.sum_cons]
      rw [ih hmem]
    | false =>
      rw [if_neg Bool.false_ne_true]
      simp only [List.map_cons, List.sum_cons]
      rw [ih hmem, h a (List.mem_cons_self a t) hpb, zero_add]

theorem activeBuckets_sum (l : List Pixel) :
    ((activeBuckets l).map (bucketWeight l)).sum = totalWeight l := by
  unfold activeBuckets
  rw [sum_filter_map_eq _ _ _ ?_, bucketWeight_range_sum]
  intro q _ hpb
  have hnlt : ¬0 < bucketWeight l q := by
    simpa using hpb
  have h0 := bucketWeight_nonneg l q
  exact le_antisymm (not_lt.mp hnlt) h0

theorem pctOf_nonneg (l : List Pixel) (q : ℕ) : 0 ≤ pctOf l q := by
  unfold pctOf
  have h : (0 : ℚ) ≤ bucketWeight l q / totalWeight l * 1000 :=
    mul_nonneg (div_nonneg (bucketWeight_nonneg l q) (totalWeight_nonneg l))
      (by norm_num)
  have hfl : (0 : ℤ) ≤ ⌊bucketWeight l q / totalWeight l * 1000⌋ :=
    Int.floor_nonneg.mpr h
  have hfl2 : (0 : ℚ) ≤ ((⌊bucketWeight l q / totalWeight l * 1000⌋ : ℤ) : ℚ) := by
    exact_mod_cast hfl
  linarith

theorem pctOf_le (l : List Pixel) (q : ℕ) :
    pctOf l q ≤ 100 * (bucketWeight l q / totalWeight l) := by
  unfold pctOf
  have hfl : ((⌊bucketWeight l q / totalWeight l * 1000⌋ : ℤ) : ℚ) ≤
      bucketWeight l q / totalWeight l * 1000 := Int.floor_le _
  linarith

theorem palette_pct_sum_le (l : List Pixel) (hT : 0 < totalWeight l) :
    ((paletteSelection l).map (pctOf l)).sum ≤ 100 := by
  have hTne : totalWeight l ≠ 0 := ne_of_gt hT
  have hsub : List.Sublist (paletteSelection l) (rankedBuckets l) :=
    (List.filter_sublist _).trans (List.take_sublist _ _)
  have h1 : ((paletteSelection l).map (pctOf l)).sum ≤
      ((rankedBuckets l).map (pctOf l)).sum := by
    refine List.Sublist.sum_le_sum (hsub.map _) ?_
    intro a ha
    rcases List.mem_map.mp ha with ⟨q, _, rfl⟩
    exact pctOf_nonneg l q
  have hperm : List.Perm (rankedBuckets l) (activeBuckets l) :=
    List.perm_insertionSort _ _
  have h2 : ((rankedBuckets l).map (pctOf l)).sum =
      ((activeBuckets l).map (pctOf l)).sum := (hperm.map _).sum_eq
  have h3 : ((activeBuckets l).map (pctOf l)).sum ≤
      ((activeBuckets l).map fun q =>
        100 / totalWeight l * bucketWeight l q).sum := by
    refine List.sum_le_sum ?_
    intro q _
    calc pctOf l q ≤ 100 * (bucketWeight l q / totalWeight l) := pctOf_le l q
      _ = 100 / totalWeight l * bucketWeight l q := by ring
  have h4 : ((activeBuckets l).map fun q =>
      100 / totalWeight l * bucketWeight l q).sum = 100 := by
    rw [List.sum_map_mul_left, activeBuckets_sum]
    field_simp
  linarith

theorem palette_pct_ge (l : List Pixel) :
    ∀ q ∈ paletteSelection l, 1 ≤ pctOf l q := by
  intro q hq
  unfold paletteSelection at hq
  have h := (List.mem_filter.mp hq).2
  simpa using h

theorem rank_total (l : List Pixel) :
    ∀ a b : ℕ, rank l a b ∨ rank l b a := by
  intro a b
  rcases lt_trichotomy (pctOf l a) (pctOf l b) with h | h | h
  · exact Or.inr (Or.inl h)
  · rcases Nat.le_total a b with hab | hab
    · exact Or.inl (Or.inr ⟨h, hab⟩)
    · exact Or.inr (Or.inr ⟨h.symm, hab⟩)
  · exact Or.inl (Or.inl h)

theorem rank_trans (l : List Pixel) :
    ∀ a b c : ℕ, rank l a b → rank l b c → rank l a c := by
  intro a b c hab hbc
  rcases hab with h1 | ⟨h1, h1le⟩ <;> rcases hbc with h2 | ⟨h2, h2le⟩
  · exact Or.inl (lt_trans h2 h1)
  · exact Or.inl (by rw [← h2]; exact h1)
  · exact Or.inl (by rw [h1]; exact h2)
  · exact Or.inr ⟨h1.trans h2, le_trans h1le h2le⟩

theorem rankedBuckets_sorted (l : List Pixel) :
    List.Sorted (rank l) (rankedBuckets l) := by
  haveI : IsTotal ℕ (rank l) := ⟨rank_total l⟩
  haveI : IsTrans ℕ (rank l) := ⟨rank_trans l⟩
  exact List.sorted_insertionSort _ _

theorem paletteSelection_pairwise (l : List Pixel) :
    List.Pairwise (rank l) (paletteSelection l) := by
  have hsub : List.Sublist (paletteSelection l) (rankedBuckets l) :=
    (List.filter_sublist _).trans (List.take_sublist _ _)
  exact List.Pairwise.sublist hsub (rankedBuckets_sorted l)

/-- C6: for every valid not-fully-transparent buffer, the palette is the
ranked selection of quantized buckets; its percentages sum to at most
100.0, each entry's percentage is at least 1.0, and the selected buckets
are ordered by descending percentage with ties broken by ascending
(first-encountered, lower) quantized bucket index (`rank`). -/
theorem spec_C6 (w h : ℤ) (data : List ℕ) (hw : 0 < w) (hh : 0 < h)
    (hlen : (data.length : ℤ) = w * h * 4)
    (hT : 0 < totalWeight (toPixels data)) :
    ∃ a, analyzeImage w h data = .ok a ∧
      a.palette =
        (paletteSelection (toPixels data)).map (paletteEntry (toPixels data)) ∧
      (a.palette.map PaletteColor.percentage).sum ≤ 100 ∧
      (∀ e ∈ a.palette, 1 ≤ e.percentage) ∧
      List.Pairwise (rank (toPixels data)) (paletteSelection (toPixels data)) := by
  have hcond : ¬(w ≤ 0 ∨ h ≤ 0 ∨ (data.length : ℤ) ≠ w * h * 4) := by
    push_neg
    exact ⟨hw, hh, hlen⟩
  refine ⟨buildAnalysis w.toNat h.toNat (toPixels data), ?_, rfl, ?_, ?_,
    paletteSelection_pairwise _⟩
  · unfold analyzeImage
    rw [if_neg hcond]
  · show ((paletteOf (toPixels data)).map PaletteColor.percentage).sum ≤ 100
    unfold paletteOf
    rw [List.map_map]
    exact palette_pct_sum_le _ hT
  · intro e he
    rcases List.mem_map.mp he with ⟨q, hq, rfl⟩
    exact palette_pct_ge _ q hq

theorem spec_C6_witness :
    (0 : ℤ) < 1 ∧ (0 : ℤ) < 1 ∧
      ((([1, 2, 3, 255] : List ℕ).length : ℤ) = 1 * 1 * 4) ∧
      0 < totalWeight (toPixels [1, 2, 3, 255]) ∧
      ∃ a, analyzeImage 1 1 [1, 2, 3, 255] = .ok a ∧
        a.palette = (paletteSelection (toPixels [1, 2, 3, 255])).map
          (paletteEntry (toPixels [1, 2, 3, 255])) ∧
        (a.palette.map PaletteColor.percentage).sum ≤ 100 ∧
        (∀ e ∈ a.palette, 1 ≤ e.percentage) ∧
        List.Pairwise (rank (toPixels [1, 2, 3, 255]))
          (paletteSelection (toPixels [1, 2, 3, 255])) :=
  ⟨by norm_num, by norm_num, by decide,
    by norm_num [totalWeight, toPixels, pixWeight],
    spec_C6 1 1 [1, 2, 3, 255] (by norm_num) (by norm_num) (by decide)
      (by norm_num [totalWeight, toPixels, pixWeight])⟩
